import Mathlib

/-!
Verification development for the image-metadata extractor (src/image.py).

The pure core of the program is embedded shallowly:
Python floats are modelled as exact rationals (all operations exercised
here - division, addition, negation, fixed-precision rounding - are exact),
Python None / caught exceptions are modelled as `Option.none`, and the
string values of the raw tag map are modelled as `String` / `List Char`.
-/

namespace ImageMeta

/-- Characters treated as whitespace by the Python str.strip used in the
source (ASCII fragment of the Python definition, which is all that the
tag strings handled by this program contain). -/
def isSpace (c : Char) : Bool :=
  c = ' ' || c = '\t' || c = '\n' || c = '\r' || c = '\x0b' || c = '\x0c'

/-- Model of Python str.strip on a character list: drop whitespace from
both ends. -/
def stripChars (cs : List Char) : List Char :=
  ((cs.dropWhile isSpace).reverse.dropWhile isSpace).reverse

/-- Numeric value of a list of decimal digit characters (most significant
first), as read by the Python float parser. -/
def natValChars (ds : List Char) : ℕ :=
  ds.foldl (fun a c => 10 * a + (c.toNat - 48)) 0

/-- Sign handling of the Python float() string parser: an optional leading
minus or plus sign. -/
def pySign (cs : List Char) : ℚ × List Char :=
  match cs with
  | [] => (1, [])
  | c :: r => if c = '-' then (-1, r) else if c = '+' then (1, r) else (1, c :: r)

/-- Model of the Python builtin float() on strings, restricted to the
decimal forms exercised by this program: optional surrounding whitespace,
optional sign, digits with an optional fractional part (also ".5" and
"1."). Scientific notation, inf/nan and digit underscores are outside the
fragment the tag scanner can produce; on those this model returns `none`
like on any other unparseable string. -/
def pyFloatChars (cs0 : List Char) : Option ℚ :=
  let cs := stripChars cs0
  let sb := pySign cs
  let ip := sb.2.takeWhile Char.isDigit
  let rest := sb.2.dropWhile Char.isDigit
  match rest with
  | [] => if ip.isEmpty then none else some (sb.1 * natValChars ip)
  | r :: fr =>
      if r = '.' && fr.all Char.isDigit && !(ip.isEmpty && fr.isEmpty) then
        some (sb.1 * ((natValChars ip : ℚ) + (natValChars fr : ℚ) / (10 : ℚ) ^ fr.length))
      else none

/-- Embeds parse_component (src/image.py lines 199-211): strip, split at
the first slash when one is present and divide the two float() results
(the Python float division raises on a zero denominator and the
surrounding handler returns None, modelled by `none`), else float() the
whole string. -/
def parseComponentChars (cs : List Char) : Option ℚ :=
  let s := stripChars cs
  if s.contains '/' then
    let num := s.takeWhile (fun c => !(c = '/'))
    let den := (s.dropWhile (fun c => !(c = '/'))).tail
    match pyFloatChars num, pyFloatChars den with
    | some x, some y => if y = 0 then none else some (x / y)
    | _, _ => none
  else pyFloatChars s

/-- String wrapper for `parseComponentChars`, keeping the source name. -/
def parse_component (s : String) : Option ℚ :=
  parseComponentChars s.data

/-- Round a rational to the nearest integer, ties to even, the rounding
performed by the Python builtin round underlying round(x, 7) in
dms_to_decimal. -/
def roundHalfEven (q : ℚ) : ℤ :=
  let f := ⌊q⌋
  let r := q - (f : ℚ)
  if r < 1 / 2 then f
  else if 1 / 2 < r then f + 1
  else if f % 2 = 0 then f else f + 1

/-- Model of Python round(x, 7): round at the seventh decimal digit. -/
def round7 (q : ℚ) : ℚ :=
  (roundHalfEven (q * 10000000) : ℚ) / 10000000

mutual
/-- A raw tag value as seen by rational_to_float (src/image.py lines
62-77): an exifread Ratio-like object carrying a num/den pair, a numeric
object, a string, Python None, or a sequence of such values. -/
inductive TagVal : Type where
  | frac (num den : Int)
  | num (q : ℚ)
  | text (s : String)
  | pynone
  | seq (xs : TagList)
/-- A Python list of tag values (a separate mutual type so that the
elementwise recursion of rational_to_float is structural). -/
inductive TagList : Type where
  | nil
  | cons (hd : TagVal) (tl : TagList)
end

/-- Result values of rational_to_float: a float or a list whose entries
are each a float or None. -/
inductive FloatVal : Type where
  | f (q : ℚ)
  | lst (xs : List (Option FloatVal))

mutual
/-- Embeds rational_to_float (src/image.py lines 62-77): a num/den pair
becomes num/den with a zero denominator mapped to 0.0, a sequence is
converted elementwise (an element failure stays a None inside that
position), a numeric object is returned as a float, a string goes through
float(), and anything else (Python None here) fails to `none`. -/
def rational_to_float : TagVal → Option FloatVal
  | TagVal.frac n d =>
      if d = 0 then some (FloatVal.f 0) else some (FloatVal.f ((n : ℚ) / (d : ℚ)))
  | TagVal.num q => some (FloatVal.f q)
  | TagVal.text s => (pyFloatChars s.data).map FloatVal.f
  | TagVal.pynone => none
  | TagVal.seq xs => some (FloatVal.lst (ratList xs))
/-- The list comprehension inside rational_to_float: convert each element,
keeping a None (a failed element) in its position. -/
def ratList : TagList → List (Option FloatVal)
  | TagList.nil => []
  | TagList.cons x xs => rational_to_float x :: ratList xs
end

/-- The arithmetic in dms_to_decimal needs a plain float; a list value
makes the Python addition raise (caught, yielding None), modelled by
collapsing non-float results to `none`. -/
def asFloat : Option FloatVal → Option ℚ
  | some (FloatVal.f q) => some q
  | _ => none

/-- Model of Python str.upper restricted to ASCII, as applied to the
single-letter hemisphere refs. -/
def pyUpper (s : String) : String :=
  String.mk (s.data.map Char.toUpper)

/-- The sign test of dms_to_decimal (src/image.py line 90): the ref must
be truthy (present and nonempty) and upper-case to exactly S or W. -/
def refFlip : Option String → Bool
  | none => false
  | some r => !(r == "") && (pyUpper r == "S" || pyUpper r == "W")

/-- Embeds dms_to_decimal (src/image.py lines 79-94): fewer than three
components yields None; the first three components are coerced through
rational_to_float (any failure, including a non-float result, yields
None); the decimal value deg + min/60 + sec/3600 is negated when the ref
upper-cases to S or W and rounded to seven decimals. -/
def dms_to_decimal (dms : List TagVal) (ref : Option String) : Option ℚ :=
  if dms.length < 3 then none
  else
    match asFloat (rational_to_float (dms.getD 0 TagVal.pynone)),
          asFloat (rational_to_float (dms.getD 1 TagVal.pynone)),
          asFloat (rational_to_float (dms.getD 2 TagVal.pynone)) with
    | some deg, some minute, some sec =>
        let dec := deg + minute / 60 + sec / 3600
        some (round7 (if refFlip ref then -dec else dec))
    | _, _, _ => none

/-- One token match of the scan regex at a position where a digit run
starts: after the greedy digit run `d1`, a fraction needs a slash followed
by at least one digit, a decimal needs a dot followed by at least one
digit (the alternatives of the pattern in priority order), else the token
is the plain digit run. Returns the token (with the already-consumed sign
prefix) and the remaining input. -/
def scanTail (sign d1 r1 : List Char) : List Char × List Char :=
  match r1 with
  | [] => (sign ++ d1, [])
  | c :: r2 =>
      if c = '/' || c = '.' then
        let d2 := r2.takeWhile Char.isDigit
        if d2.isEmpty then (sign ++ d1, c :: r2)
        else (sign ++ d1 ++ c :: d2, r2.dropWhile Char.isDigit)
      else (sign ++ d1, c :: r2)

/-- Match one numeric token starting at `cs` (whose head is a digit),
with an optional already-matched minus sign. -/
def scanToken (sign cs : List Char) : List Char × List Char :=
  scanTail sign (cs.takeWhile Char.isDigit) (cs.dropWhile Char.isDigit)

/-- Left-to-right non-overlapping scan of the regex
(-?d+/d+|-?d+.d+|-?d+) used on the raw GPS strings (src/image.py lines
214-215), written with an explicit fuel argument (one unit per input
position, so an initial fuel of the input length always suffices). -/
def findNumsGo : ℕ → List Char → List (List Char)
  | 0, _ => []
  | _ + 1, [] => []
  | n + 1, c :: rest =>
      if c.isDigit then
        let tr := scanToken [] (c :: rest)
        tr.1 :: findNumsGo n tr.2
      else if c = '-' && (rest.head?.map Char.isDigit).getD false then
        let tr := scanToken ['-'] rest
        tr.1 :: findNumsGo n tr.2
      else
        findNumsGo n rest

/-- All numeric tokens of a raw GPS string, in order (re.findall of the
pattern in src/image.py lines 214-215). -/
def findNums (cs : List Char) : List (List Char) :=
  findNumsGo cs.length cs

/-- The raw tag map: tag name to stringified tag value, as produced by
exifread_tags (src/image.py lines 141-149). -/
def Tags : Type := List (String × String)

/-- Python dict lookup tags.get(k) on the raw tag map. -/
def tget (tags : Tags) (k : String) : Option String :=
  (tags.find? (fun p => p.fst == k)).map Prod.snd

/-- Python truthiness of an optional string: None and the empty string are
falsy. -/
def truthyStr : Option String → Bool
  | none => false
  | some s => !(s == "")

/-- Python `a or b` on optional strings: the left value when truthy, else
the right value as is. -/
def pyOr (a b : Option String) : Option String :=
  if truthyStr a then a else b

/-- The date-time key loop of parse_friendly_exif (src/image.py lines
156-161): the value of the first key present in the map, by presence, not
truthiness. -/
def firstPresent (tags : Tags) : List String → Option String
  | [] => none
  | k :: ks =>
      match tget tags k with
      | some v => some v
      | none => firstPresent tags ks

/-- The capture date-time alias list, most specific first. -/
def dtKeys : List String :=
  ["EXIF DateTimeOriginal", "EXIF DateTimeDigitized", "Image DateTime"]

/-- The capture date-time selector of parse_friendly_exif. -/
def capture_selector (tags : Tags) : Option String :=
  firstPresent tags dtKeys

/-- Model of Python str.strip on a String. -/
def pyStrip (s : String) : String :=
  String.mk (stripChars s.data)

/-- Space-join of a list of strings, as Python " ".join. -/
def joinSpace : List String → String
  | [] => ""
  | [s] => s
  | s :: rest => s ++ " " ++ joinSpace rest

/-- The device field of parse_friendly_exif (src/image.py lines 164-168):
make and model resolved through their alias pairs with Python or, and when
either is truthy the space-join of the stripped truthy values. -/
def device_of (tags : Tags) : Option String :=
  let make := pyOr (tget tags "Image Make") (tget tags "Make")
  let model := pyOr (tget tags "Image Model") (tget tags "Model")
  if truthyStr make || truthyStr model then
    some (joinSpace ((([make, model].filterMap id).filter (fun s => !(s == ""))).map pyStrip))
  else none

/-- One exposure field of parse_friendly_exif (src/image.py lines
171-182): the alias pair resolved with Python or, and the key set only
when the value is truthy. -/
def exposure_field (tags : Tags) (k1 k2 : String) : Option String :=
  let v := pyOr (tget tags k1) (tget tags k2)
  if truthyStr v then v else none

/-- Wrap a parse_component result the way the GPS lists are built: a float
on success, Python None on failure. -/
def toTV : Option ℚ → TagVal
  | none => TagVal.pynone
  | some q => TagVal.num q

/-- Decimal rendering of a rational for the maps link. This abstracts the
Python float-to-string formatting; no claim inspects the link text. -/
def ratRepr (q : ℚ) : String :=
  toString q.num ++ (if q.den = 1 then "" else "/" ++ toString q.den)

/-- The fixed-template Google Maps URL of src/image.py line 225. -/
def mapsLink (la lo : ℚ) : String :=
  "https://www.google.com/maps/search/?api=1&query=" ++ ratRepr la ++ "," ++ ratRepr lo

/-- The gps sub-record of the friendly metadata. -/
structure Gps where
  lat : ℚ
  lon : ℚ
  google_maps : String

/-- Embeds the GPS block of parse_friendly_exif (src/image.py lines
184-227): both raw tags must be present; each raw string is scanned for
numeric tokens; with at least three tokens on both axes the first three of
each go through parse_component and dms_to_decimal with the corresponding
ref tag; both conversions must succeed. Every failure path yields `none`
(the Python code reaches the same state by falling through or by the
enclosing except handler). -/
def extract_gps (tags : Tags) : Option Gps :=
  match tget tags "GPS GPSLatitude", tget tags "GPS GPSLongitude" with
  | some rawLat, some rawLon =>
      let latNums := findNums rawLat.data
      let lonNums := findNums rawLon.data
      if 3 ≤ latNums.length && 3 ≤ lonNums.length then
        let latList := (latNums.take 3).map (fun t => toTV (parseComponentChars t))
        let lonList := (lonNums.take 3).map (fun t => toTV (parseComponentChars t))
        match dms_to_decimal latList (tget tags "GPS GPSLatitudeRef"),
              dms_to_decimal lonList (tget tags "GPS GPSLongitudeRef") with
        | some la, some lo => some { lat := la, lon := lo, google_maps := mapsLink la lo }
        | _, _ => none
      else none
  | _, _ => none

/-- The friendly metadata record built by parse_friendly_exif: each field
is independently optional (`none` models the key being absent from the
output dict; for capture_datetime, whose key is always written, it models
the value None). -/
structure Friendly where
  capture_datetime : Option String
  device : Option String
  iso : Option String
  exposure_time : Option String
  aperture : Option String
  focal_length : Option String
  gps : Option Gps

/-- Embeds parse_friendly_exif (src/image.py lines 151-229). -/
def parse_friendly_exif (tags : Tags) : Friendly :=
  { capture_datetime := capture_selector tags
    device := device_of tags
    iso := exposure_field tags "EXIF ISOSpeedRatings" "PhotographicSensitivity"
    exposure_time := exposure_field tags "EXIF ExposureTime" "ExposureTime"
    aperture := exposure_field tags "EXIF FNumber" "FNumber"
    focal_length := exposure_field tags "EXIF FocalLength" "FocalLength"
    gps := extract_gps tags }

/-- Embeds the capture date-time fallback of summarize_one (src/image.py
lines 254-256): when the friendly capture_datetime is falsy, substitute
the filesystem modification timestamp. -/
def fallback_capture (cap mtime : Option String) : Option String :=
  if truthyStr cap then cap else mtime

/-- The four raw GPS tag names used by the GPS block. -/
def gpsKeys : List String :=
  ["GPS GPSLatitude", "GPS GPSLongitude", "GPS GPSLatitudeRef", "GPS GPSLongitudeRef"]

/-- The same raw tag map with the GPS tags absent. -/
def stripGps (tags : Tags) : Tags :=
  tags.filter (fun p => !(gpsKeys.contains p.fst))

/-- An entry of the batch output mapping: the error marker written for a
missing input path, or the per-file record (abstracted over the record
type, since building a real record is file input). -/
inductive BatchEntry (α : Type) : Type where
  | err (msg : String)
  | ok (r : α)

/-- Python dict assignment d[k] = v on an insertion-ordered association
list: overwrite the (unique) existing binding in place, else append. -/
def dictInsert {α : Type} (m : List (String × α)) (k : String) (v : α) :
    List (String × α) :=
  match m with
  | [] => [(k, v)]
  | p :: t => if p.fst == k then (k, v) :: t else p :: dictInsert t k v

/-- Python dict lookup on the batch output mapping. -/
def dlookup {α : Type} (m : List (String × α)) (k : String) : Option α :=
  (m.find? (fun p => p.fst == k)).map Prod.snd

/-- The batch loop of main (src/image.py lines 330-337), with the
filesystem existence test and the per-file summarizer as parameters: a
missing path prints to stderr and records an error entry, an existing path
records its summary; either way the loop continues. Returns the output
mapping and the stderr lines. -/
def batchGo {α : Type} (ex : String → Bool) (sm : String → α)
    (acc : List (String × BatchEntry α)) (errs : List String) :
    List String → List (String × BatchEntry α) × List String
  | [] => (acc, errs)
  | p :: ps =>
      if ex p then
        batchGo ex sm (dictInsert acc p (BatchEntry.ok (sm p))) errs ps
      else
        batchGo ex sm (dictInsert acc p (BatchEntry.err "file not found"))
          (errs ++ ["File not found: " ++ p]) ps

/-- The batch loop of main started on empty accumulators. -/
def batch_results {α : Type} (ex : String → Bool) (sm : String → α)
    (paths : List String) : List (String × BatchEntry α) × List String :=
  batchGo ex sm [] [] paths

/-- The exit code of main (src/image.py lines 339-351): sys.exit(2) only
when an output file was requested and writing it fails; every other path
(text output, printed JSON, successful save) falls off the end of main
with exit code 0. -/
def main_exit_code (outFile : Option String) (writeOk : String → Bool) : ℕ :=
  match outFile with
  | some f => if writeOk f then 0 else 2
  | none => 0

/-- Spec-side sign test (follows the claim text for C3): the ref flips the
sign exactly when its case-insensitive single-letter form is S or W, and
an absent ref produces no flip. -/
def refFlipSpec : Option String → Bool
  | none => false
  | some r => pyUpper r == "S" || pyUpper r == "W"

/-- Spec-side Coordinate Resolver (follows the claim text for C3):
round(deg + min/60 + sec/3600, 7), negated exactly when the ref flips. -/
def coordinate_resolver_spec (d m s : ℚ) (ref : Option String) : ℚ :=
  if refFlipSpec ref = true then -round7 (d + m / 60 + s / 3600)
  else round7 (d + m / 60 + s / 3600)

/-- Spec-side device rule (follows the amended claim text for C7): the
space-joined concatenation of the trimmed manufacturer and model values,
skipping whichever is absent or empty; when both are absent or empty the
field is unset. -/
def device_spec (make model : Option String) : Option String :=
  let parts := ([make, model].filterMap id).filter (fun s => !(s == ""))
  if parts.isEmpty then none else some (joinSpace (parts.map pyStrip))

/-- The per-path batch entry determined by the filesystem and summarizer
models. -/
def entry_of {α : Type} (ex : String → Bool) (sm : String → α) (p : String) :
    BatchEntry α :=
  if ex p then BatchEntry.ok (sm p) else BatchEntry.err "file not found"

/-- Spec-side key sequence (for C10): the input paths with duplicates
collapsed onto their first occurrence, in order. -/
def dedupKeys (init : List String) (paths : List String) : List String :=
  paths.foldl (fun ks p => if ks.contains p then ks else ks ++ [p]) init

/-- A concrete raw tag map whose latitude string carries a negative degree
token: the scan regex admits a leading minus, so the emitted latitude is
negative although the ref is N. -/
def negLatTags : Tags :=
  [("GPS GPSLatitude", "[-34, 5, 12]"), ("GPS GPSLongitude", "[10, 20, 30]"),
    ("GPS GPSLatitudeRef", "N"), ("GPS GPSLongitudeRef", "E")]

/-- A concrete raw tag map carrying only an Image DateTime tag. -/
def dtOnlyTags : Tags := [("Image DateTime", "2020:01:02 03:04:05")]

/-- A concrete raw tag map with well-formed, minus-free GPS strings. -/
def posTags : Tags :=
  [("GPS GPSLatitude", "[34, 5, 12]"), ("GPS GPSLongitude", "[10, 20, 30]"),
    ("GPS GPSLatitudeRef", "S"), ("GPS GPSLongitudeRef", "E")]

/-- A concrete raw tag map whose latitude string yields only two numeric
tokens, alongside normal device and exposure tags. -/
def malformedLatTags : Tags :=
  [("GPS GPSLatitude", "[1, 2]"), ("GPS GPSLongitude", "[1, 2, 3]"),
    ("GPS GPSLatitudeRef", "N"), ("GPS GPSLongitudeRef", "E"),
    ("Image Make", "Acme"), ("EXIF ISOSpeedRatings", "100")]

theorem roundHalfEven_eq (q : ℚ) :
    roundHalfEven q =
      if q - (⌊q⌋ : ℚ) < 1 / 2 then ⌊q⌋
      else if 1 / 2 < q - (⌊q⌋ : ℚ) then ⌊q⌋ + 1
      else if ⌊q⌋ % 2 = 0 then ⌊q⌋ else ⌊q⌋ + 1 := rfl

theorem roundHalfEven_neg (q : ℚ) : roundHalfEven (-q) = -roundHalfEven q := by
  rw [roundHalfEven_eq, roundHalfEven_eq]
  rcases eq_or_lt_of_le (Int.floor_le q) with h | h
  · have h1 : ⌊(-q : ℚ)⌋ = -⌊q⌋ := by
      rw [← h]
      rw [show (-(⌊q⌋ : ℚ)) = ((-⌊q⌋ : ℤ) : ℚ) by push_cast; ring]
      exact Int.floor_intCast _
    rw [h1, ← h]
    push_cast
    norm_num
  · have hub : q < (⌊q⌋ : ℚ) + 1 := Int.lt_floor_add_one q
    have h1 : ⌊(-q : ℚ)⌋ = -⌊q⌋ - 1 := by
      rw [Int.floor_eq_iff]
      constructor
      · push_cast; linarith
      · push_cast; linarith
    rw [h1]
    have hc : -q - ((-⌊q⌋ - 1 : ℤ) : ℚ) = 1 - (q - (⌊q⌋ : ℚ)) := by push_cast; ring
    rw [hc]
    split_ifs <;> first
      | omega
      | (exfalso; linarith)

theorem roundHalfEven_nonneg (q : ℚ) (h : 0 ≤ q) : 0 ≤ roundHalfEven q := by
  rw [roundHalfEven_eq]
  have h0 : 0 ≤ ⌊q⌋ := Int.floor_nonneg.mpr h
  split_ifs <;> omega

theorem round7_neg (q : ℚ) : round7 (-q) = -round7 q := by
  unfold round7
  rw [show (-q * 10000000 : ℚ) = -(q * 10000000) by ring, roundHalfEven_neg]
  push_cast
  ring

theorem round7_nonneg (q : ℚ) (h : 0 ≤ q) : 0 ≤ round7 q := by
  unfold round7
  have h1 : 0 ≤ roundHalfEven (q * 10000000) :=
    roundHalfEven_nonneg _ (by positivity)
  have h2 : (0 : ℚ) ≤ (roundHalfEven (q * 10000000) : ℚ) := by exact_mod_cast h1
  positivity

theorem dropWhile_eq_self_of (p : Char → Bool) (l : List Char)
    (h : ∀ c ∈ l, p c = false) : l.dropWhile p = l := by
  cases l with
  | nil => rfl
  | cons a l =>
      rw [List.dropWhile_cons]
      rw [h a (List.mem_cons_self a l)]
      simp

theorem takeWhile_eq_self_of (p : Char → Bool) (l : List Char)
    (h : ∀ c ∈ l, p c = true) : l.takeWhile p = l := by
  induction l with
  | nil => rfl
  | cons a l ih =>
      simp [List.takeWhile_cons, h a (List.mem_cons_self a l),
        ih (fun c hc => h c (List.mem_cons_of_mem a hc))]

theorem dropWhile_eq_nil_of (p : Char → Bool) (l : List Char)
    (h : ∀ c ∈ l, p c = true) : l.dropWhile p = [] := by
  induction l with
  | nil => rfl
  | cons a l ih =>
      rw [List.dropWhile_cons, h a (List.mem_cons_self a l)]
      simp only [if_pos]
      exact ih (fun c hc => h c (List.mem_cons_of_mem a hc))

theorem stripChars_eq_self (cs : List Char)
    (h : ∀ c ∈ cs, isSpace c = false) : stripChars cs = cs := by
  unfold stripChars
  rw [dropWhile_eq_self_of _ _ h]
  rw [dropWhile_eq_self_of _ _ (fun c hc => h c (List.mem_reverse.mp hc))]
  exact List.reverse_reverse cs

theorem stripChars_subset (cs : List Char) {c : Char}
    (h : c ∈ stripChars cs) : c ∈ cs := by
  unfold stripChars at h
  rw [List.mem_reverse] at h
  have h1 := (List.dropWhile_sublist isSpace).subset h
  rw [List.mem_reverse] at h1
  exact (List.dropWhile_sublist isSpace).subset h1

theorem isSpace_of_isDigit {c : Char} (h : c.isDigit = true) : isSpace c = false := by
  by_contra hs
  rw [Bool.not_eq_false] at hs
  simp only [isSpace, Bool.or_eq_true, decide_eq_true_eq] at hs
  rcases hs with ((((h1 | h1) | h1) | h1) | h1) | h1 <;>
    (subst h1; exact absurd h (by decide))

theorem ne_minus_of_isDigit {c : Char} (h : c.isDigit = true) : c ≠ '-' := by
  intro h1
  subst h1
  exact absurd h (by decide)

theorem ne_plus_of_isDigit {c : Char} (h : c.isDigit = true) : c ≠ '+' := by
  intro h1
  subst h1
  exact absurd h (by decide)

theorem ne_slash_of_isDigit {c : Char} (h : c.isDigit = true) : c ≠ '/' := by
  intro h1
  subst h1
  exact absurd h (by decide)

theorem takeWhile_append_boundary (p : Char → Bool) (xs : List Char) (y : Char)
    (ys : List Char) (hall : ∀ x ∈ xs, p x = true) (hy : p y = false) :
    (xs ++ y :: ys).takeWhile p = xs := by
  induction xs with
  | nil => simp [List.takeWhile_cons, hy]
  | cons a l ih =>
      rw [List.cons_append, List.takeWhile_cons, hall a (List.mem_cons_self a l)]
      simp only [if_pos]
      rw [ih (fun x hx => hall x (List.mem_cons_of_mem a hx))]

theorem dropWhile_append_boundary (p : Char → Bool) (xs : List Char) (y : Char)
    (ys : List Char) (hall : ∀ x ∈ xs, p x = true) (hy : p y = false) :
    (xs ++ y :: ys).dropWhile p = y :: ys := by
  induction xs with
  | nil => simp [List.dropWhile_cons, hy]
  | cons a l ih =>
      rw [List.cons_append, List.dropWhile_cons, hall a (List.mem_cons_self a l)]
      simp only [if_pos]
      exact ih (fun x hx => hall x (List.mem_cons_of_mem a hx))

theorem pySign_digits (ds : List Char) (h1 : ds ≠ [])
    (h2 : ∀ c ∈ ds, c.isDigit = true) : pySign ds = (1, ds) := by
  cases ds with
  | nil => exact absurd rfl h1
  | cons c r =>
      have hc := h2 c (List.mem_cons_self c r)
      simp only [pySign]
      rw [if_neg (ne_minus_of_isDigit hc), if_neg (ne_plus_of_isDigit hc)]

theorem isEmpty_false_of_ne_nil {l : List Char} (h : l ≠ []) : l.isEmpty = false := by
  cases l with
  | nil => exact absurd rfl h
  | cons a l => rfl

theorem pyFloatChars_digits (ds : List Char) (h1 : ds ≠ [])
    (h2 : ∀ c ∈ ds, c.isDigit = true) :
    pyFloatChars ds = some ((natValChars ds : ℚ)) := by
  unfold pyFloatChars
  dsimp only
  rw [stripChars_eq_self ds (fun c hc => isSpace_of_isDigit (h2 c hc))]
  rw [pySign_digits ds h1 h2]
  dsimp only
  rw [takeWhile_eq_self_of _ _ h2, dropWhile_eq_nil_of _ _ h2]
  try dsimp only
  rw [isEmpty_false_of_ne_nil h1]
  simp

theorem pySign_minus (r : List Char) : pySign ('-' :: r) = (-1, r) := by
  simp [pySign]

theorem scanTail_fst_no_minus (d1 r1 : List Char)
    (hd1 : ∀ c ∈ d1, c.isDigit = true) : '-' ∉ (scanTail [] d1 r1).1 := by
  intro hmem
  cases r1 with
  | nil =>
      simp only [scanTail, List.nil_append] at hmem
      exact absurd (hd1 '-' hmem) (by decide)
  | cons c r2 =>
      simp only [scanTail] at hmem
      split at hmem
      next hsep =>
        split at hmem
        · simp only [List.nil_append] at hmem
          exact absurd (hd1 '-' hmem) (by decide)
        · simp only [List.nil_append, List.mem_append, List.mem_cons] at hmem
          rcases hmem with h | h | h
          · exact absurd (hd1 '-' h) (by decide)
          · have hsep2 : c = '/' ∨ c = '.' := by simpa using hsep
            rcases hsep2 with hc | hc <;> (subst hc; exact absurd h (by decide))
          · exact absurd (List.mem_takeWhile_imp h) (by decide)
      next =>
        simp only [List.nil_append] at hmem
        exact absurd (hd1 '-' hmem) (by decide)

theorem scanTail_snd_subset (sign d1 r1 : List Char) :
    ∀ c ∈ (scanTail sign d1 r1).2, c ∈ r1 := by
  intro c hc
  cases r1 with
  | nil => simp only [scanTail] at hc; exact absurd hc (List.not_mem_nil c)
  | cons a r2 =>
      simp only [scanTail] at hc
      split at hc
      · split at hc
        · exact hc
        · exact List.mem_cons_of_mem a ((List.dropWhile_sublist Char.isDigit).subset hc)
      · exact hc

theorem scanToken_fst_no_minus (cs : List Char) : '-' ∉ (scanToken [] cs).1 :=
  scanTail_fst_no_minus _ _ (fun _ hc => List.mem_takeWhile_imp hc)

theorem scanToken_snd_subset (sign cs : List Char) :
    ∀ c ∈ (scanToken sign cs).2, c ∈ cs := by
  intro c hc
  exact (List.dropWhile_sublist Char.isDigit).subset
    (scanTail_snd_subset sign _ _ c hc)

theorem findNumsGo_no_minus :
    ∀ (n : ℕ) (cs : List Char), '-' ∉ cs → ∀ t ∈ findNumsGo n cs, '-' ∉ t := by
  intro n
  induction n with
  | zero => intro cs hm t ht; simp [findNumsGo] at ht
  | succ n ih =>
      intro cs hm t ht
      cases cs with
      | nil => simp [findNumsGo] at ht
      | cons c rest =>
          simp only [findNumsGo] at ht
          split at ht
          next hdig =>
            rcases List.mem_cons.mp ht with rfl | hrec
            · exact scanToken_fst_no_minus (c :: rest)
            · exact ih _ (fun hh => hm (scanToken_snd_subset [] (c :: rest) '-' hh)) t hrec
          next hdig =>
            split at ht
            next hcond =>
              exfalso
              apply hm
              have hc : c = '-' := by
                have h2 := hcond
                simp only [Bool.and_eq_true, decide_eq_true_eq] at h2
                exact h2.1
              rw [hc]
              exact List.mem_cons_self '-' rest
            next =>
              exact ih rest (fun hh => hm (List.mem_cons_of_mem c hh)) t ht

theorem findNums_no_minus (cs : List Char) (hm : '-' ∉ cs) :
    ∀ t ∈ findNums cs, '-' ∉ t :=
  findNumsGo_no_minus cs.length cs hm

theorem pySign_fst_one (cs : List Char) (hm : '-' ∉ cs) : (pySign cs).1 = 1 := by
  cases cs with
  | nil => rfl
  | cons c r =>
      have hc : ¬ c = '-' := fun e => hm (e ▸ List.mem_cons_self c r)
      simp only [pySign]
      rw [if_neg hc]
      by_cases h2 : c = '+'
      · rw [if_pos h2]
      · rw [if_neg h2]

theorem pyFloatChars_nonneg (cs : List Char) (hm : '-' ∉ cs) (x : ℚ)
    (h : pyFloatChars cs = some x) : 0 ≤ x := by
  unfold pyFloatChars at h
  dsimp only at h
  have hm2 : '-' ∉ stripChars cs := fun hc => hm (stripChars_subset cs hc)
  rw [pySign_fst_one _ hm2] at h
  split at h
  · split at h
    · exact absurd h (by simp)
    · rw [← Option.some.inj h, one_mul]
      positivity
  · split at h
    · rw [← Option.some.inj h, one_mul]
      positivity
    · exact absurd h (by simp)

theorem parseComponentChars_nonneg (cs : List Char) (hm : '-' ∉ cs) (q : ℚ)
    (h : parseComponentChars cs = some q) : 0 ≤ q := by
  unfold parseComponentChars at h
  dsimp only at h
  have hm2 : '-' ∉ stripChars cs := fun hc => hm (stripChars_subset cs hc)
  split at h
  · have hnum : '-' ∉ (stripChars cs).takeWhile (fun c => !(c = '/')) :=
      fun hc => hm2 ((List.takeWhile_sublist _).subset hc)
    have hden : '-' ∉ ((stripChars cs).dropWhile (fun c => !(c = '/'))).tail :=
      fun hc => hm2 ((List.dropWhile_sublist _).subset ((List.tail_sublist _).subset hc))
    rcases hx : pyFloatChars ((stripChars cs).takeWhile (fun c => !(c = '/'))) with _ | x
    · rw [hx] at h
      exact absurd h (by simp)
    · rcases hy : pyFloatChars (((stripChars cs).dropWhile (fun c => !(c = '/'))).tail)
        with _ | y
      · rw [hx, hy] at h
        exact absurd h (by simp)
      · rw [hx, hy] at h
        dsimp only at h
        split at h
        · exact absurd h (by simp)
        · rw [← Option.some.inj h]
          exact div_nonneg (pyFloatChars_nonneg _ hnum x hx) (pyFloatChars_nonneg _ hden y hy)
  · exact pyFloatChars_nonneg _ hm2 q h

theorem parseComponent_fraction_core (ns es : List Char) (v : ℚ)
    (hsp : ∀ c ∈ ns, isSpace c = false) (hsl : ∀ c ∈ ns, ¬ c = '/')
    (hv : pyFloatChars ns = some v)
    (h3 : es ≠ []) (h4 : ∀ c ∈ es, c.isDigit = true) :
    parseComponentChars (ns ++ '/' :: es) =
      if (natValChars es : ℚ) = 0 then none
      else some (v / (natValChars es : ℚ)) := by
  have hall : ∀ c ∈ ns ++ '/' :: es, isSpace c = false := by
    intro c hc
    rcases List.mem_append.mp hc with h | h
    · exact hsp c h
    · rcases List.mem_cons.mp h with rfl | h
      · decide
      · exact isSpace_of_isDigit (h4 c h)
  have hpred : ∀ c ∈ ns, (fun c => !(c = '/')) c = true := by
    intro c hc
    simp [hsl c hc]
  unfold parseComponentChars
  dsimp only
  rw [stripChars_eq_self _ hall]
  have hmem : '/' ∈ ns ++ '/' :: es :=
    List.mem_append_right _ (List.mem_cons_self _ _)
  rw [if_pos (List.elem_eq_true_of_mem hmem)]
  rw [takeWhile_append_boundary _ ns '/' es hpred (by decide)]
  rw [dropWhile_append_boundary _ ns '/' es hpred (by decide)]
  dsimp only [List.tail_cons]
  rw [hv, pyFloatChars_digits es h3 h4]

theorem asFloat_toTV (o : Option ℚ) :
    asFloat (rational_to_float (toTV o)) = o := by
  cases o <;> rfl

theorem dms_to_decimal_triple_parsed (t0 t1 t2 : List Char) (ref : Option String) (q : ℚ)
    (h : dms_to_decimal [toTV (parseComponentChars t0), toTV (parseComponentChars t1),
          toTV (parseComponentChars t2)] ref = some q) :
    ∃ d m s : ℚ, parseComponentChars t0 = some d ∧ parseComponentChars t1 = some m ∧
      parseComponentChars t2 = some s ∧
      q = if refFlip ref = true then -round7 (d + m / 60 + s / 3600)
          else round7 (d + m / 60 + s / 3600) := by
  unfold dms_to_decimal at h
  rw [if_neg (by simp)] at h
  simp only [List.getD_cons_zero, List.getD_cons_succ] at h
  rw [asFloat_toTV, asFloat_toTV, asFloat_toTV] at h
  rcases h0 : parseComponentChars t0 with _ | d <;> rw [h0] at h
  · exact absurd h (by simp)
  rcases h1 : parseComponentChars t1 with _ | m <;> rw [h1] at h
  · exact absurd h (by simp)
  rcases h2 : parseComponentChars t2 with _ | s <;> rw [h2] at h
  · exact absurd h (by simp)
  refine ⟨d, m, s, rfl, rfl, rfl, ?_⟩
  dsimp only at h
  rw [← Option.some.inj h]
  by_cases hf : refFlip ref = true
  · rw [if_pos hf, if_pos hf, round7_neg]
  · rw [if_neg hf, if_neg hf]

theorem pyFloatChars_sign_digits (ds : List Char) (h1 : ds ≠ [])
    (h2 : ∀ c ∈ ds, c.isDigit = true) :
    pyFloatChars ('-' :: ds) = some (-(natValChars ds : ℚ)) := by
  unfold pyFloatChars
  dsimp only
  rw [stripChars_eq_self ('-' :: ds) (fun c hc => by
    rcases List.mem_cons.mp hc with h | h
    · subst h; decide
    · exact isSpace_of_isDigit (h2 c h))]
  rw [pySign_minus]
  dsimp only
  rw [takeWhile_eq_self_of _ _ h2, dropWhile_eq_nil_of _ _ h2]
  try dsimp only
  rw [isEmpty_false_of_ne_nil h1]
  simp

example : findNums "[34, 5, 12/100]".data = ["34".data, "5".data, "12/100".data] := by decide
example : findNums "[-34, 5, 12.5]".data = ["-34".data, "5".data, "12.5".data] := by decide
example : (findNums "[1, 2]".data).length = 2 := by decide
unseal Rat.add Rat.mul Rat.inv Rat.sub in
example : parse_component "56/100" = some (14 / 25) := by decide
unseal Rat.add Rat.mul Rat.inv Rat.sub in
example : parse_component "1/0" = none := by decide
unseal Rat.add Rat.mul Rat.inv Rat.sub in
example : parse_component " 12.5 " = some (25 / 2) := by decide
example : parse_component "abc" = none := by decide
example : rational_to_float (TagVal.frac 3 0) = some (FloatVal.f 0) := rfl
unseal Rat.add Rat.mul Rat.inv Rat.sub in
example : dms_to_decimal [TagVal.num 34, TagVal.num 5, TagVal.num 12] (some "N")
    = some (340866667 / 10000000) := by decide
unseal Rat.add Rat.mul Rat.inv Rat.sub in
example : dms_to_decimal [TagVal.num 34, TagVal.num 5, TagVal.num 12] (some "S")
    = some (-(340866667 / 10000000)) := by decide
example : dms_to_decimal [TagVal.num 1, TagVal.num 2] none = none := by decide
unseal Rat.add Rat.mul Rat.inv Rat.sub in
example :
    ((extract_gps [("GPS GPSLatitude", "[34, 5, 12]"), ("GPS GPSLongitude", "[10, 20, 30]"),
        ("GPS GPSLatitudeRef", "S"), ("GPS GPSLongitudeRef", "E")]).map Gps.lat)
      = some (-(340866667 / 10000000)) := by decide
example :
    (batch_results (fun _ => false) (fun _ => (0 : ℕ)) ["a", "b", "a"]).2
      = ["File not found: a", "File not found: b", "File not found: a"] := by decide

unseal Rat.add Rat.mul Rat.inv Rat.sub in
/-- C1 counterexample: the claim asserts that a fraction with zero
denominator coerces to 0.0 on the parse_component path as well; in fact
parse_component "1/0" hits the Python ZeroDivisionError handler and
returns None (Absent). The rational_to_float num/den path does return 0.0,
so the two paths genuinely differ at b = 0. -/
theorem c1_counterexample :
    parse_component "1/0" = none ∧
    rational_to_float (TagVal.frac 1 0) = some (FloatVal.f 0) := by
  constructor
  · decide
  · rfl

/-- C1 (amended): a num/den pair coerces to a/b, with b = 0 giving 0.0;
a fraction string made of a digit numerator and digit denominator (with an
optional leading minus, the token shapes produced by the GPS scan) parses
to the quotient when the denominator is nonzero, and to Absent - not 0.0 -
when the denominator is zero. -/
theorem c1_fraction_coercion :
    (∀ a b : ℤ, rational_to_float (TagVal.frac a b) =
        some (FloatVal.f (if b = 0 then 0 else (a : ℚ) / (b : ℚ)))) ∧
    (∀ ds es : List Char, ds ≠ [] → es ≠ [] →
      (∀ c ∈ ds, c.isDigit = true) → (∀ c ∈ es, c.isDigit = true) →
      (parseComponentChars (ds ++ '/' :: es) =
        if (natValChars es : ℚ) = 0 then none
        else some ((natValChars ds : ℚ) / (natValChars es : ℚ))) ∧
      (parseComponentChars ('-' :: (ds ++ '/' :: es)) =
        if (natValChars es : ℚ) = 0 then none
        else some (-(natValChars ds : ℚ) / (natValChars es : ℚ)))) := by
  constructor
  · intro a b
    by_cases hb : b = 0
    · simp only [rational_to_float]
      rw [if_pos hb, if_pos hb]
    · simp only [rational_to_float]
      rw [if_neg hb, if_neg hb]
  · intro ds es h1 h3 h2 h4
    constructor
    · exact parseComponent_fraction_core ds es _
        (fun c hc => isSpace_of_isDigit (h2 c hc))
        (fun c hc => ne_slash_of_isDigit (h2 c hc))
        (pyFloatChars_digits ds h1 h2) h3 h4
    · rw [show ('-' :: (ds ++ '/' :: es)) = (('-' :: ds) ++ '/' :: es) from rfl]
      exact parseComponent_fraction_core ('-' :: ds) es _
        (fun c hc => by
          rcases List.mem_cons.mp hc with rfl | hc
          · decide
          · exact isSpace_of_isDigit (h2 c hc))
        (fun c hc => by
          rcases List.mem_cons.mp hc with rfl | hc
          · decide
          · exact ne_slash_of_isDigit (h2 c hc))
        (pyFloatChars_sign_digits ds h1 h2) h3 h4

/-- C1 witness: the amended theorem applied at the fraction string 56/100
and at the num/den pair 3/0. -/
theorem c1_witness :
    parseComponentChars (['5', '6'] ++ '/' :: ['1', '0', '0']) = some ((56 : ℚ) / 100) ∧
    rational_to_float (TagVal.frac 3 0) = some (FloatVal.f 0) := by
  constructor
  · have h := (c1_fraction_coercion.2 ['5', '6'] ['1', '0', '0']
      (by decide) (by decide) (by decide) (by decide)).1
    have e1 : natValChars ['5', '6'] = 56 := by decide
    have e2 : natValChars ['1', '0', '0'] = 100 := by decide
    rw [h, e1, e2]
    norm_num
  · have h := c1_fraction_coercion.1 3 0
    rw [h]
    norm_num

theorem refFlip_eq_spec (ref : Option String) : refFlip ref = refFlipSpec ref := by
  cases ref with
  | none => rfl
  | some r =>
      by_cases hr : r = ""
      · subst hr; decide
      · simp only [refFlip, refFlipSpec]
        have hb : (r == "") = false := beq_eq_false_iff_ne.mpr hr
        rw [hb]
        simp

/-- C3: on a well-formed triple of numeric components and any optional
ref string, dms_to_decimal returns exactly the spec-side Coordinate
Resolver value: round(deg + min/60 + sec/3600, 7), negated exactly when
the ref upper-cases to S or W, with an absent ref producing no flip; it
is a total function over such inputs by construction. -/
theorem c3_coordinate_resolver (d m s : ℚ) (ref : Option String) :
    dms_to_decimal [TagVal.num d, TagVal.num m, TagVal.num s] ref =
      some (coordinate_resolver_spec d m s ref) := by
  unfold dms_to_decimal
  rw [if_neg (by simp)]
  simp only [List.getD_cons_zero, List.getD_cons_succ]
  simp only [rational_to_float, asFloat]
  unfold coordinate_resolver_spec
  rw [← refFlip_eq_spec]
  by_cases hf : refFlip ref = true
  · rw [if_pos hf, if_pos hf, round7_neg]
  · rw [if_neg hf, if_neg hf]

unseal Rat.add Rat.mul Rat.inv Rat.sub in
/-- C4 counterexample: the claim asserts that any component list with
other than exactly three elements yields Absent; the code only checks for
fewer than three and silently uses the first three, so a four-element
list still produces a coordinate. -/
theorem c4_counterexample :
    dms_to_decimal [TagVal.num 1, TagVal.num 2, TagVal.num 3, TagVal.num 4] none ≠ none := by
  decide

/-- C4 (amended): dms_to_decimal yields Absent exactly when the list has
fewer than three elements or one of the FIRST THREE components fails
numeric coercion; elements beyond the third are ignored (the result on a
longer list equals the result on its first three elements). -/
theorem c4_components (dms : List TagVal) (ref : Option String) :
    (dms_to_decimal dms ref = none ↔
      (dms.length < 3 ∨ asFloat (rational_to_float (dms.getD 0 TagVal.pynone)) = none ∨
        asFloat (rational_to_float (dms.getD 1 TagVal.pynone)) = none ∨
        asFloat (rational_to_float (dms.getD 2 TagVal.pynone)) = none)) ∧
    (3 ≤ dms.length → dms_to_decimal dms ref = dms_to_decimal (dms.take 3) ref) := by
  constructor
  · unfold dms_to_decimal
    by_cases hl : dms.length < 3
    · simp [hl]
    · rw [if_neg hl]
      rcases h0 : asFloat (rational_to_float (dms.getD 0 TagVal.pynone)) with _ | d
      · simp [hl, h0]
      rcases h1 : asFloat (rational_to_float (dms.getD 1 TagVal.pynone)) with _ | m
      · simp [hl, h0, h1]
      rcases h2 : asFloat (rational_to_float (dms.getD 2 TagVal.pynone)) with _ | s
      · simp [hl, h0, h1, h2]
      simp [hl, h0, h1, h2]
  · intro h3
    rcases dms with _ | ⟨a, rest1⟩
    · simp at h3
    rcases rest1 with _ | ⟨b, rest2⟩
    · simp at h3
    rcases rest2 with _ | ⟨c, rest3⟩
    · simp at h3
    unfold dms_to_decimal
    rw [if_neg (by simp only [List.length_cons]; omega), if_neg (by simp)]
    simp only [List.take_succ_cons, List.take_zero, List.getD_cons_zero, List.getD_cons_succ]

unseal Rat.add Rat.mul Rat.inv Rat.sub in
/-- C4 witness: the amended theorem applied to the empty list, to a list
whose first component is Absent, and to a four-element list. -/
theorem c4_witness :
    dms_to_decimal [] none = none ∧
    dms_to_decimal [TagVal.pynone, TagVal.num 1, TagVal.num 2] none = none ∧
    dms_to_decimal [TagVal.num 1, TagVal.num 2, TagVal.num 3, TagVal.num 4] none =
      dms_to_decimal [TagVal.num 1, TagVal.num 2, TagVal.num 3] none := by
  refine ⟨?_, ?_, ?_⟩
  · exact (c4_components [] none).1.mpr (Or.inl (by decide))
  · exact (c4_components [TagVal.pynone, TagVal.num 1, TagVal.num 2] none).1.mpr
      (Or.inr (Or.inl (by decide)))
  · exact (c4_components [TagVal.num 1, TagVal.num 2, TagVal.num 3, TagVal.num 4] none).2
      (by decide)

theorem gps_axis_analysis (raw : String) (ref : Option String) (v : ℚ)
    (hm : '-' ∉ raw.data)
    (h : dms_to_decimal (((findNums raw.data).take 3).map
          (fun t => toTV (parseComponentChars t))) ref = some v) :
    ∃ d m s : ℚ, 0 ≤ d ∧ 0 ≤ m ∧ 0 ≤ s ∧
      v = if refFlip ref = true then -round7 (d + m / 60 + s / 3600)
          else round7 (d + m / 60 + s / 3600) := by
  by_cases hl3 : 3 ≤ (findNums raw.data).length
  · have hlen3 : ((findNums raw.data).take 3).length = 3 := by
      rw [List.length_take]
      omega
    obtain ⟨t0, t1, t2, ht⟩ := List.length_eq_three.mp hlen3
    rw [ht] at h
    simp only [List.map_cons, List.map_nil] at h
    obtain ⟨d, m, s, hd, hmm, hs, hv⟩ := dms_to_decimal_triple_parsed t0 t1 t2 ref v h
    have hsub : ∀ t, t ∈ (findNums raw.data).take 3 → t ∈ findNums raw.data :=
      fun t htm => List.take_subset 3 _ htm
    have m0 : t0 ∈ findNums raw.data := hsub t0 (by rw [ht]; exact List.mem_cons_self _ _)
    have m1 : t1 ∈ findNums raw.data := hsub t1 (by
      rw [ht]; exact List.mem_cons_of_mem _ (List.mem_cons_self _ _))
    have m2 : t2 ∈ findNums raw.data := hsub t2 (by
      rw [ht]; exact List.mem_cons_of_mem _ (List.mem_cons_of_mem _ (List.mem_cons_self _ _)))
    exact ⟨d, m, s,
      parseComponentChars_nonneg t0 (findNums_no_minus _ hm t0 m0) d hd,
      parseComponentChars_nonneg t1 (findNums_no_minus _ hm t1 m1) m hmm,
      parseComponentChars_nonneg t2 (findNums_no_minus _ hm t2 m2) s hs, hv⟩
  · exfalso
    have hlt : (((findNums raw.data).take 3).map
        (fun t => toTV (parseComponentChars t))).length < 3 := by
      rw [List.length_map, List.length_take]
      omega
    unfold dms_to_decimal at h
    rw [if_pos hlt] at h
    exact Option.noConfusion h

/-- C2 (amended): when the raw latitude and longitude strings contain no
minus sign (the tokens the scan recovers are then all non-negative), every
coordinate emitted by GPS extraction is the rounded DMS combination of
three non-negative components whose sign is determined solely by the ref:
it is negated exactly under an S/W ref, hence non-positive under an S/W
ref and non-negative otherwise. The restriction is necessary: the scan
pattern admits a leading minus on a token, and a negative token breaks
the invariant (see the counterexample). -/
theorem c2_gps_sign (tags : Tags) (g : Gps) (rawLat rawLon : String)
    (hLat : tget tags "GPS GPSLatitude" = some rawLat)
    (hLon : tget tags "GPS GPSLongitude" = some rawLon)
    (hml : '-' ∉ rawLat.data) (hmo : '-' ∉ rawLon.data)
    (hg : extract_gps tags = some g) :
    (∃ d m s : ℚ, 0 ≤ d ∧ 0 ≤ m ∧ 0 ≤ s ∧
      g.lat = if refFlip (tget tags "GPS GPSLatitudeRef") = true
              then -round7 (d + m / 60 + s / 3600)
              else round7 (d + m / 60 + s / 3600)) ∧
    (∃ d m s : ℚ, 0 ≤ d ∧ 0 ≤ m ∧ 0 ≤ s ∧
      g.lon = if refFlip (tget tags "GPS GPSLongitudeRef") = true
              then -round7 (d + m / 60 + s / 3600)
              else round7 (d + m / 60 + s / 3600)) ∧
    (refFlip (tget tags "GPS GPSLatitudeRef") = true → g.lat ≤ 0) ∧
    (refFlip (tget tags "GPS GPSLatitudeRef") = false → 0 ≤ g.lat) ∧
    (refFlip (tget tags "GPS GPSLongitudeRef") = true → g.lon ≤ 0) ∧
    (refFlip (tget tags "GPS GPSLongitudeRef") = false → 0 ≤ g.lon) := by
  unfold extract_gps at hg
  rw [hLat, hLon] at hg
  dsimp only at hg
  split at hg
  · rcases hla : dms_to_decimal (((findNums rawLat.data).take 3).map
        (fun t => toTV (parseComponentChars t))) (tget tags "GPS GPSLatitudeRef")
        with _ | la <;> rw [hla] at hg
    · exact absurd hg (by simp)
    rcases hlo : dms_to_decimal (((findNums rawLon.data).take 3).map
        (fun t => toTV (parseComponentChars t))) (tget tags "GPS GPSLongitudeRef")
        with _ | lo <;> rw [hlo] at hg
    · exact absurd hg (by simp)
    dsimp only at hg
    have hge := Option.some.inj hg
    obtain ⟨d1, m1, s1, hd1, hm1, hs1, hv1⟩ :=
      gps_axis_analysis rawLat (tget tags "GPS GPSLatitudeRef") la hml hla
    obtain ⟨d2, m2, s2, hd2, hm2, hs2, hv2⟩ :=
      gps_axis_analysis rawLon (tget tags "GPS GPSLongitudeRef") lo hmo hlo
    have hlat : g.lat = la := by rw [← hge]
    have hlon : g.lon = lo := by rw [← hge]
    have hr1 : 0 ≤ round7 (d1 + m1 / 60 + s1 / 3600) :=
      round7_nonneg _ (by positivity)
    have hr2 : 0 ≤ round7 (d2 + m2 / 60 + s2 / 3600) :=
      round7_nonneg _ (by positivity)
    refine ⟨⟨d1, m1, s1, hd1, hm1, hs1, by rw [hlat]; exact hv1⟩,
      ⟨d2, m2, s2, hd2, hm2, hs2, by rw [hlon]; exact hv2⟩, ?_, ?_, ?_, ?_⟩
    · intro hf
      rw [hlat, hv1, if_pos hf]
      linarith
    · intro hf
      rw [hlat, hv1, if_neg (by rw [hf]; exact Bool.false_ne_true)]
      exact hr1
    · intro hf
      rw [hlon, hv2, if_pos hf]
      linarith
    · intro hf
      rw [hlon, hv2, if_neg (by rw [hf]; exact Bool.false_ne_true)]
      exact hr2
  · exact absurd hg (by simp)

unseal Rat.add Rat.mul Rat.inv Rat.sub in
/-- C2 counterexample: the scan pattern admits a leading minus on a
degree token, so with latitude string "[-34, 5, 12]" and ref N the emitted
latitude is negative although the ref is North: the sign is not determined
by the hemisphere ref and the magnitude is not built from non-negative
components. -/
theorem c2_counterexample :
    tget negLatTags "GPS GPSLatitudeRef" = some "N" ∧
    (extract_gps negLatTags).isSome = true ∧
    ((extract_gps negLatTags).map Gps.lat).getD 0 < 0 := by
  refine ⟨by decide, by decide, by decide⟩

unseal Rat.add Rat.mul Rat.inv Rat.sub in
/-- C2 witness: the amended theorem applied to a concrete minus-free tag
map with an S latitude ref and an E longitude ref. -/
theorem c2_witness :
    ∃ g : Gps, extract_gps posTags = some g ∧ g.lat ≤ 0 ∧ 0 ≤ g.lon := by
  rcases hg : extract_gps posTags with _ | g
  · have his : (extract_gps posTags).isSome = true := by decide
    rw [hg] at his
    exact absurd his (by decide)
  · have h := c2_gps_sign posTags g "[34, 5, 12]" "[10, 20, 30]"
      (by decide) (by decide) (by decide) (by decide) hg
    exact ⟨g, rfl, h.2.2.1 (by decide), h.2.2.2.2.2 (by decide)⟩

theorem tget_stripGps (tags : Tags) (k : String) (hk : gpsKeys.contains k = false) :
    tget (stripGps tags) k = tget tags k := by
  induction tags with
  | nil => rfl
  | cons p t ih =>
      by_cases hp : gpsKeys.contains p.fst = true
      · have hne : (p.fst == k) = false := by
          rw [beq_eq_false_iff_ne]
          intro e
          rw [e, hk] at hp
          exact Bool.noConfusion hp
        have hpm : p.fst ∈ gpsKeys := by simpa using hp
        have hfil : stripGps (p :: t) = stripGps t := by
          simp [stripGps, List.filter_cons, hpm]
        rw [hfil, ih]
        unfold tget
        rw [List.find?_cons_of_neg _ (by simp [hne])]
      · have hp2 : gpsKeys.contains p.fst = false := by
          cases hgp : gpsKeys.contains p.fst
          · rfl
          · exact absurd hgp hp
        have hpm : p.fst ∉ gpsKeys := by simpa using hp2
        have hfil : stripGps (p :: t) = p :: stripGps t := by
          simp [stripGps, List.filter_cons, hpm]
        rw [hfil]
        unfold tget
        by_cases hpk : (p.fst == k) = true
        · rw [List.find?_cons_of_pos _ (by simp [hpk]),
            List.find?_cons_of_pos _ (by simp [hpk])]
        · rw [List.find?_cons_of_neg _ (by simp [hpk]),
            List.find?_cons_of_neg _ (by simp [hpk])]
          exact ih

theorem exposure_field_strip (tags : Tags) (k1 k2 : String)
    (h1 : gpsKeys.contains k1 = false) (h2 : gpsKeys.contains k2 = false) :
    exposure_field (stripGps tags) k1 k2 = exposure_field tags k1 k2 := by
  unfold exposure_field
  rw [tget_stripGps _ _ h1, tget_stripGps _ _ h2]

/-- C5: a latitude (or longitude) raw string with fewer than three numeric
tokens makes GPS extraction yield no gps field, and removing the GPS tags
from the raw map changes none of the other friendly fields - so a GPS
failure can never alter the capture, device or exposure fields of the same
record. -/
theorem c5_gps_isolation :
    (∀ (tags : Tags) (rawLat : String), tget tags "GPS GPSLatitude" = some rawLat →
      (findNums rawLat.data).length < 3 → extract_gps tags = none) ∧
    (∀ (tags : Tags) (rawLon : String), tget tags "GPS GPSLongitude" = some rawLon →
      (findNums rawLon.data).length < 3 → extract_gps tags = none) ∧
    (∀ tags : Tags,
      (parse_friendly_exif (stripGps tags)).capture_datetime =
        (parse_friendly_exif tags).capture_datetime ∧
      (parse_friendly_exif (stripGps tags)).device = (parse_friendly_exif tags).device ∧
      (parse_friendly_exif (stripGps tags)).iso = (parse_friendly_exif tags).iso ∧
      (parse_friendly_exif (stripGps tags)).exposure_time =
        (parse_friendly_exif tags).exposure_time ∧
      (parse_friendly_exif (stripGps tags)).aperture = (parse_friendly_exif tags).aperture ∧
      (parse_friendly_exif (stripGps tags)).focal_length =
        (parse_friendly_exif tags).focal_length) := by
  refine ⟨?_, ?_, ?_⟩
  · intro tags rawLat hlat hlen
    unfold extract_gps
    rw [hlat]
    rcases tget tags "GPS GPSLongitude" with _ | rawLon
    · rfl
    · dsimp only
      rw [if_neg (by
        intro hc
        simp only [Bool.and_eq_true, decide_eq_true_eq] at hc
        omega)]
  · intro tags rawLon hlon hlen
    unfold extract_gps
    rw [hlon]
    rcases tget tags "GPS GPSLatitude" with _ | rawLat
    · rfl
    · dsimp only
      rw [if_neg (by
        intro hc
        simp only [Bool.and_eq_true, decide_eq_true_eq] at hc
        omega)]
  · intro tags
    refine ⟨?_, ?_, ?_, ?_, ?_, ?_⟩
    · show capture_selector (stripGps tags) = capture_selector tags
      simp only [capture_selector, dtKeys, firstPresent,
        tget_stripGps tags "EXIF DateTimeOriginal" (by decide),
        tget_stripGps tags "EXIF DateTimeDigitized" (by decide),
        tget_stripGps tags "Image DateTime" (by decide)]
    · show device_of (stripGps tags) = device_of tags
      unfold device_of
      rw [tget_stripGps tags "Image Make" (by decide), tget_stripGps tags "Make" (by decide),
        tget_stripGps tags "Image Model" (by decide), tget_stripGps tags "Model" (by decide)]
    · exact exposure_field_strip tags _ _ (by decide) (by decide)
    · exact exposure_field_strip tags _ _ (by decide) (by decide)
    · exact exposure_field_strip tags _ _ (by decide) (by decide)
    · exact exposure_field_strip tags _ _ (by decide) (by decide)

/-- C5 witness: the theorem applied to a concrete map whose latitude
string has two numeric tokens, with intact device and ISO tags. -/
theorem c5_witness :
    extract_gps malformedLatTags = none ∧
    (parse_friendly_exif (stripGps malformedLatTags)).device =
      (parse_friendly_exif malformedLatTags).device :=
  ⟨c5_gps_isolation.1 malformedLatTags "[1, 2]" (by decide) (by decide),
    (c5_gps_isolation.2.2 malformedLatTags).2.1⟩

/-- C6: capture_datetime is the value of the first present key among
EXIF DateTimeOriginal, EXIF DateTimeDigitized, Image DateTime - in
particular a map carrying only Image DateTime resolves to that value -
and when none of the three is present the record capture_datetime is
substituted with the filesystem modification timestamp. -/
theorem c6_capture_datetime :
    (∀ (tags : Tags) (v : String), tget tags "EXIF DateTimeOriginal" = some v →
      (parse_friendly_exif tags).capture_datetime = some v) ∧
    (∀ (tags : Tags) (v : String), tget tags "EXIF DateTimeOriginal" = none →
      tget tags "EXIF DateTimeDigitized" = some v →
      (parse_friendly_exif tags).capture_datetime = some v) ∧
    (∀ (tags : Tags) (v : String), tget tags "EXIF DateTimeOriginal" = none →
      tget tags "EXIF DateTimeDigitized" = none → tget tags "Image DateTime" = some v →
      (parse_friendly_exif tags).capture_datetime = some v) ∧
    (∀ (tags : Tags) (mtime : String), tget tags "EXIF DateTimeOriginal" = none →
      tget tags "EXIF DateTimeDigitized" = none → tget tags "Image DateTime" = none →
      (parse_friendly_exif tags).capture_datetime = none ∧
      fallback_capture (parse_friendly_exif tags).capture_datetime (some mtime) =
        some mtime) := by
  refine ⟨?_, ?_, ?_, ?_⟩
  · intro tags v h
    show capture_selector tags = some v
    simp only [capture_selector, dtKeys, firstPresent, h]
  · intro tags v h1 h2
    show capture_selector tags = some v
    simp only [capture_selector, dtKeys, firstPresent, h1, h2]
  · intro tags v h1 h2 h3
    show capture_selector tags = some v
    simp only [capture_selector, dtKeys, firstPresent, h1, h2, h3]
  · intro tags mtime h1 h2 h3
    have hsel : capture_selector tags = none := by
      simp only [capture_selector, dtKeys, firstPresent, h1, h2, h3]
    refine ⟨hsel, ?_⟩
    show fallback_capture (capture_selector tags) (some mtime) = some mtime
    rw [hsel]
    rfl

/-- C6 witness: the theorem applied to a map carrying only Image DateTime
and to the empty map with a concrete modification timestamp. -/
theorem c6_witness :
    (parse_friendly_exif dtOnlyTags).capture_datetime = some "2020:01:02 03:04:05" ∧
    fallback_capture (parse_friendly_exif ([] : Tags)).capture_datetime
      (some "2024-05-01 10:00:00") = some "2024-05-01 10:00:00" :=
  ⟨c6_capture_datetime.2.2.1 dtOnlyTags "2020:01:02 03:04:05" (by decide) (by decide)
      (by decide),
    (c6_capture_datetime.2.2.2 ([] : Tags) "2024-05-01 10:00:00" rfl rfl rfl).2⟩

/-- C7 counterexample: a map whose only manufacturer/model tag is an
Image Model present with the empty string; the claim says the device field
is then that value alone, but the code treats the empty string as falsy
and leaves the device field unset. -/
theorem c7_counterexample :
    tget [("Image Model", "")] "Image Model" = some "" ∧
    (parse_friendly_exif [("Image Model", "")]).device = none := by
  constructor
  · decide
  · decide

/-- C7 (amended): the device field equals the space-joined concatenation
of the trimmed manufacturer and model values, skipping whichever is
absent OR EMPTY (the code treats an empty tag value like an absent one);
when both are absent or empty the field is unset. Concretely, make Acme
with model X100 gives device Acme X100, and model X100 alone gives X100
with no leading space. -/
theorem c7_device :
    (∀ tags : Tags, (parse_friendly_exif tags).device =
      device_spec (pyOr (tget tags "Image Make") (tget tags "Make"))
        (pyOr (tget tags "Image Model") (tget tags "Model"))) ∧
    (parse_friendly_exif [("Image Make", "Acme"), ("Image Model", "X100")]).device =
      some "Acme X100" ∧
    (parse_friendly_exif [("Image Model", "X100")]).device = some "X100" := by
  refine ⟨?_, by decide, by decide⟩
  intro tags
  show device_of tags = _
  unfold device_of device_spec
  rcases hmk : pyOr (tget tags "Image Make") (tget tags "Make") with _ | a
  · rcases hmd : pyOr (tget tags "Image Model") (tget tags "Model") with _ | b
    · decide
    · by_cases hb : b = ""
      · subst hb; decide
      · have hbb : (b == "") = false := beq_eq_false_iff_ne.mpr hb
        simp [truthyStr, hbb, joinSpace]
  · rcases hmd : pyOr (tget tags "Image Model") (tget tags "Model") with _ | b
    · by_cases ha : a = ""
      · subst ha; decide
      · have haa : (a == "") = false := beq_eq_false_iff_ne.mpr ha
        simp [truthyStr, haa, joinSpace]
    · by_cases ha : a = ""
      · subst ha
        by_cases hb : b = ""
        · subst hb; decide
        · have hbb : (b == "") = false := beq_eq_false_iff_ne.mpr hb
          simp [truthyStr, hbb, joinSpace]
      · have haa : (a == "") = false := beq_eq_false_iff_ne.mpr ha
        by_cases hb : b = ""
        · subst hb
          simp [truthyStr, haa, joinSpace]
        · have hbb : (b == "") = false := beq_eq_false_iff_ne.mpr hb
          simp [truthyStr, haa, hbb, joinSpace]

/-- C8: numeric coercion and the coordinate resolver are total with
explicit absent results: an unparseable string coerces to Absent, Python
None coerces to Absent, a sequence always coerces to a sequence whose
entries are the elementwise results (an element failure stays an Absent
inside its position, and never escapes), and a coercion failure in any of
the first three DMS components makes dms_to_decimal return Absent rather
than raising. -/
theorem c8_total_coercion :
    (∀ s : String, pyFloatChars s.data = none → rational_to_float (TagVal.text s) = none) ∧
    rational_to_float TagVal.pynone = none ∧
    (∀ (x : TagVal) (xs : TagList), rational_to_float (TagVal.seq (TagList.cons x xs)) =
      some (FloatVal.lst (rational_to_float x :: ratList xs))) ∧
    (∀ (dms : List TagVal) (ref : Option String) (i : ℕ), i < 3 →
      asFloat (rational_to_float (dms.getD i TagVal.pynone)) = none →
      dms_to_decimal dms ref = none) := by
  refine ⟨?_, rfl, ?_, ?_⟩
  · intro s h
    simp only [rational_to_float, h, Option.map_none']
  · intro x xs
    rfl
  · intro dms ref i hi h
    by_cases hl : dms.length < 3
    · unfold dms_to_decimal
      rw [if_pos hl]
    · unfold dms_to_decimal
      rw [if_neg hl]
      interval_cases i
      · rw [h]
      · rcases h0 : asFloat (rational_to_float (dms.getD 0 TagVal.pynone)) with _ | d
        · rfl
        · rw [h]
      · rcases h0 : asFloat (rational_to_float (dms.getD 0 TagVal.pynone)) with _ | d
        · rfl
        · rcases h1 : asFloat (rational_to_float (dms.getD 1 TagVal.pynone)) with _ | m
          · rfl
          · rw [h]

/-- C8 witness: the theorem applied to the unparseable string abc and to a
DMS list whose first component is an unparseable string. -/
theorem c8_witness :
    rational_to_float (TagVal.text "abc") = none ∧
    dms_to_decimal [TagVal.text "abc", TagVal.num 1, TagVal.num 2] none = none :=
  ⟨c8_total_coercion.1 "abc" (by decide),
    c8_total_coercion.2.2.2 [TagVal.text "abc", TagVal.num 1, TagVal.num 2] none 0
      (by decide) (by decide)⟩

theorem dlookup_dictInsert_self {α : Type} (m : List (String × α)) (k : String) (v : α) :
    dlookup (dictInsert m k v) k = some v := by
  induction m with
  | nil =>
      unfold dictInsert dlookup
      rw [List.find?_cons_of_pos _ (by simp)]
      rfl
  | cons p t ih =>
      unfold dictInsert
      by_cases hp : (p.fst == k) = true
      · rw [if_pos hp]
        unfold dlookup
        rw [List.find?_cons_of_pos _ (by simp)]
        rfl
      · rw [if_neg hp]
        unfold dlookup
        rw [List.find?_cons_of_neg _ (by simp_all)]
        exact ih

theorem dlookup_dictInsert_ne {α : Type} (m : List (String × α)) (k k2 : String) (v : α)
    (h : k2 ≠ k) : dlookup (dictInsert m k v) k2 = dlookup m k2 := by
  induction m with
  | nil =>
      unfold dictInsert dlookup
      rw [List.find?_cons_of_neg _ (by simp [beq_eq_false_iff_ne, Ne.symm h])]
  | cons p t ih =>
      unfold dictInsert
      by_cases hp : (p.fst == k) = true
      · rw [if_pos hp]
        unfold dlookup
        have hpk : p.fst = k := by simpa using hp
        rw [List.find?_cons_of_neg _ (by simp [beq_eq_false_iff_ne, Ne.symm h]),
          List.find?_cons_of_neg _ (by simp [hpk, beq_eq_false_iff_ne, Ne.symm h])]
      · rw [if_neg hp]
        by_cases hpk : (p.fst == k2) = true
        · unfold dlookup
          rw [List.find?_cons_of_pos _ (by simpa using hpk),
            List.find?_cons_of_pos _ (by simpa using hpk)]
        · unfold dlookup
          rw [List.find?_cons_of_neg _ (by simp_all),
            List.find?_cons_of_neg _ (by simp_all)]
          exact ih

theorem dictInsert_keys {α : Type} (m : List (String × α)) (k : String) (v : α) :
    (dictInsert m k v).map Prod.fst =
      if (m.map Prod.fst).contains k then m.map Prod.fst else m.map Prod.fst ++ [k] := by
  induction m with
  | nil => simp [dictInsert]
  | cons p t ih =>
      unfold dictInsert
      by_cases hp : (p.fst == k) = true
      · rw [if_pos hp]
        have hpk : p.fst = k := by simpa using hp
        have hc : ((p :: t).map Prod.fst).contains k = true := by
          simp [hpk]
        rw [hc]
        simp [hpk]
      · rw [if_neg hp]
        have hpk : ¬ p.fst = k := by simpa using hp
        simp only [List.map_cons, List.contains_cons]
        have hkp : (k == p.fst) = false := beq_eq_false_iff_ne.mpr (Ne.symm hpk)
        rw [hkp]
        simp only [Bool.false_or]
        by_cases hc : ((t.map Prod.fst).contains k) = true
        · rw [hc, if_pos rfl]
          rw [ih, if_pos hc]
        · have hc2 : ((t.map Prod.fst).contains k) = false := by
            cases hcc : (t.map Prod.fst).contains k
            · rfl
            · exact absurd hcc hc
          rw [hc2, if_neg (by simp)]
          rw [ih, if_neg (by rw [hc2]; exact Bool.false_ne_true)]
          simp

theorem batchGo_mem_value {α : Type} (ex : String → Bool) (sm : String → α) :
    ∀ (ps : List String) (acc : List (String × BatchEntry α)) (errs : List String)
      (p : String), (p ∈ ps ∨ dlookup acc p = some (entry_of ex sm p)) →
      dlookup (batchGo ex sm acc errs ps).1 p = some (entry_of ex sm p) := by
  intro ps
  induction ps with
  | nil =>
      intro acc errs p h
      rcases h with h | h
      · exact absurd h (List.not_mem_nil p)
      · exact h
  | cons q ps ih =>
      intro acc errs p h
      unfold batchGo
      have hstep : ∀ (errs2 : List String),
          dlookup (batchGo ex sm (dictInsert acc q (entry_of ex sm q)) errs2 ps).1 p =
            some (entry_of ex sm p) := by
        intro errs2
        apply ih
        rcases h with h | h
        · rcases List.mem_cons.mp h with rfl | h2
          · right
            rw [dlookup_dictInsert_self]
          · left
            exact h2
        · by_cases hpq : p = q
          · subst hpq
            right
            rw [dlookup_dictInsert_self]
          · right
            rw [dlookup_dictInsert_ne _ _ _ _ hpq]
            exact h
      cases hex : ex q with
      | true =>
          rw [if_pos rfl]
          have := hstep errs
          rwa [entry_of, if_pos hex] at this
      | false =>
          rw [if_neg Bool.false_ne_true]
          have := hstep (errs ++ ["File not found: " ++ q])
          rwa [entry_of, if_neg (by rw [hex]; exact Bool.false_ne_true)] at this

theorem batchGo_errs_mono {α : Type} (ex : String → Bool) (sm : String → α) :
    ∀ (ps : List String) (acc : List (String × BatchEntry α)) (errs : List String)
      (e : String), e ∈ errs → e ∈ (batchGo ex sm acc errs ps).2 := by
  intro ps
  induction ps with
  | nil => intro acc errs e he; exact he
  | cons q ps ih =>
      intro acc errs e he
      unfold batchGo
      cases hex : ex q with
      | true =>
          rw [if_pos rfl]
          exact ih _ _ e he
      | false =>
          rw [if_neg Bool.false_ne_true]
          exact ih _ _ e (List.mem_append_left _ he)

theorem batchGo_missing_err {α : Type} (ex : String → Bool) (sm : String → α) :
    ∀ (ps : List String) (acc : List (String × BatchEntry α)) (errs : List String)
      (p : String), p ∈ ps → ex p = false →
      ("File not found: " ++ p) ∈ (batchGo ex sm acc errs ps).2 := by
  intro ps
  induction ps with
  | nil => intro acc errs p h; exact absurd h (List.not_mem_nil p)
  | cons q ps ih =>
      intro acc errs p h hex
      rcases List.mem_cons.mp h with rfl | h2
      · unfold batchGo
        rw [if_neg (by rw [hex]; exact Bool.false_ne_true)]
        exact batchGo_errs_mono ex sm ps _ _ _
          (List.mem_append_right _ (List.mem_singleton.mpr rfl))
      · unfold batchGo
        cases hq : ex q with
        | true =>
            rw [if_pos rfl]
            exact ih _ _ p h2 hex
        | false =>
            rw [if_neg Bool.false_ne_true]
            exact ih _ _ p h2 hex

theorem batchGo_keys {α : Type} (ex : String → Bool) (sm : String → α) :
    ∀ (ps : List String) (acc : List (String × BatchEntry α)) (errs : List String),
      (batchGo ex sm acc errs ps).1.map Prod.fst = dedupKeys (acc.map Prod.fst) ps := by
  intro ps
  induction ps with
  | nil => intro acc errs; rfl
  | cons q ps ih =>
      intro acc errs
      unfold batchGo
      have hded : dedupKeys (acc.map Prod.fst) (q :: ps) =
          dedupKeys (if (acc.map Prod.fst).contains q then acc.map Prod.fst
            else acc.map Prod.fst ++ [q]) ps := by
        unfold dedupKeys
        rw [List.foldl_cons]
      rw [hded]
      cases hex : ex q with
      | true =>
          rw [if_pos rfl, ih, dictInsert_keys]
      | false =>
          rw [if_neg Bool.false_ne_true, ih, dictInsert_keys]

theorem dedupKeys_length :
    ∀ (ps : List String) (init : List String),
      (dedupKeys init ps).length ≤ init.length + ps.length := by
  intro ps
  induction ps with
  | nil => intro init; simp [dedupKeys]
  | cons q ps ih =>
      intro init
      have hstep : dedupKeys init (q :: ps) =
          dedupKeys (if init.contains q then init else init ++ [q]) ps := by
        unfold dedupKeys
        rw [List.foldl_cons]
      rw [hstep]
      by_cases hc : init.contains q = true
      · rw [if_pos hc]
        calc (dedupKeys init ps).length ≤ init.length + ps.length := ih init
          _ ≤ init.length + (q :: ps).length := by simp [List.length_cons]
      · rw [if_neg hc]
        calc (dedupKeys (init ++ [q]) ps).length ≤ (init ++ [q]).length + ps.length :=
              ih (init ++ [q])
          _ = init.length + (q :: ps).length := by simp [List.length_append]; omega

/-- C9: in a batch run every missing input path is recorded in the output
mapping as an error entry and reported on the error stream, every input
path still receives an entry (processing continues), and the exit code is
zero in every mode except a failed write of a requested output file, which
exits with code 2. -/
theorem c9_batch_errors {α : Type} (ex : String → Bool) (sm : String → α)
    (paths : List String) :
    (∀ p ∈ paths, ex p = false →
      dlookup (batch_results ex sm paths).1 p = some (BatchEntry.err "file not found") ∧
      ("File not found: " ++ p) ∈ (batch_results ex sm paths).2) ∧
    (∀ q ∈ paths, (dlookup (batch_results ex sm paths).1 q).isSome = true) ∧
    (∀ writeOk : String → Bool, main_exit_code none writeOk = 0) ∧
    (∀ (f : String) (writeOk : String → Bool), writeOk f = true →
      main_exit_code (some f) writeOk = 0) ∧
    (∀ (f : String) (writeOk : String → Bool), writeOk f = false →
      main_exit_code (some f) writeOk = 2) := by
  refine ⟨?_, ?_, ?_, ?_, ?_⟩
  · intro p hp hex
    constructor
    · have := batchGo_mem_value ex sm paths [] [] p (Or.inl hp)
      rwa [entry_of, if_neg (by rw [hex]; exact Bool.false_ne_true)] at this
    · exact batchGo_missing_err ex sm paths [] [] p hp hex
  · intro q hq
    have h2 := batchGo_mem_value ex sm paths [] [] q (Or.inl hq)
    unfold batch_results
    rw [h2]
    rfl
  · intro writeOk
    rfl
  · intro f writeOk h
    unfold main_exit_code
    dsimp only
    rw [if_pos h]
  · intro f writeOk h
    unfold main_exit_code
    dsimp only
    rw [if_neg (by rw [h]; exact Bool.false_ne_true)]

/-- C9 witness: the theorem applied to a batch whose single path is
missing, and to a failing and a succeeding output write. -/
theorem c9_witness :
    dlookup (batch_results (fun _ => false) (fun _ => (0 : ℕ)) ["x"]).1 "x" =
      some (BatchEntry.err "file not found") ∧
    ("File not found: " ++ "x") ∈
      (batch_results (fun _ => false) (fun _ => (0 : ℕ)) ["x"]).2 ∧
    main_exit_code (some "out.json") (fun _ => false) = 2 ∧
    main_exit_code (some "out.json") (fun _ => true) = 0 := by
  have h := c9_batch_errors (fun _ => false) (fun _ => (0 : ℕ)) ["x"]
  exact ⟨(h.1 "x" (List.mem_singleton.mpr rfl) rfl).1,
    (h.1 "x" (List.mem_singleton.mpr rfl) rfl).2,
    h.2.2.2.2 "out.json" (fun _ => false) rfl,
    h.2.2.2.1 "out.json" (fun _ => true) rfl⟩

/-- C10: the batch output is keyed by the input path as given: its key
sequence is the input list with duplicates collapsed onto their first
occurrence, each input path maps to the entry its (deterministic)
processing produces, the number of entries never exceeds the number of
input arguments, and with a duplicated input it is strictly smaller (the
concrete two-element batch with a repeated path has one entry). -/
theorem c10_output_mapping {α : Type} (ex : String → Bool) (sm : String → α)
    (paths : List String) :
    ((batch_results ex sm paths).1.map Prod.fst = dedupKeys [] paths) ∧
    (∀ p ∈ paths, dlookup (batch_results ex sm paths).1 p = some (entry_of ex sm p)) ∧
    ((batch_results ex sm paths).1.length ≤ paths.length) ∧
    ((batch_results (fun _ => true) (fun _ => (0 : ℕ)) ["a", "a"]).1.length = 1) := by
  refine ⟨?_, ?_, ?_, by decide⟩
  · exact batchGo_keys ex sm paths [] []
  · intro p hp
    exact batchGo_mem_value ex sm paths [] [] p (Or.inl hp)
  · have hk := batchGo_keys ex sm paths [] []
    unfold batch_results
    rw [← List.length_map (batchGo ex sm [] [] paths).1 Prod.fst, hk]
    have := dedupKeys_length paths []
    simpa using this

/-- C10 witness: the value conjunct applied to a duplicated concrete
batch. -/
theorem c10_witness :
    dlookup (batch_results (fun _ => true) (fun _ => (0 : ℕ)) ["a", "a"]).1 "a" =
      some (entry_of (fun _ => true) (fun _ => (0 : ℕ)) "a") :=
  (c10_output_mapping (fun _ => true) (fun _ => (0 : ℕ)) ["a", "a"]).2.1 "a"
    (List.mem_cons_self "a" ["a"])

end ImageMeta
